import Mathlib

/-!
Verification of the Map-Tiler tile atlas engine (`MapTiler.py`, with the
older variant `CreateTiledFiles.py`).

Shallow embedding conventions:
* Python integers are `Nat` (Python ints are unbounded; all quantities here
  are non-negative).
* PIL images are a width, a height and a pixel function; pixel data carries
  four channels (RGBA).
* Python dictionaries keyed by the consecutive integers `0, 1, 2, ...`
  (such as `imageDict` and each per-layer `layerDict`) are `List`s, the key
  being the position; `for k in d.keys()` iterates those keys in ascending
  order for such dictionaries.
* Loops are recursive functions; the two numeric `while` loops carry a fuel
  argument that provably dominates their iteration count, so that every
  definition evaluates by kernel reduction.
-/

namespace MapTiler

/-- Constant used in Tiled to indicate a horizontal flip (bit 31). -/
def FLIPPED_HORIZONTALLY_FLAG : Nat := 0x80000000

/-- Constant used in Tiled to indicate a vertical flip (bit 30). -/
def FLIPPED_VERTICALLY_FLAG : Nat := 0x40000000

/-- Constant used in Tiled to indicate a diagonal flip (bit 29). -/
def FLIPPED_DIAGONALLY_FLAG : Nat := 0x20000000

/-- Table `MapTiler.TRANSFORM_DICT`: transform code to `(flipX, flipY, flipD)`
triple.  The source dictionary has exactly the keys `0`–`7`; the catch-all
branch is the entry for key `7`. -/
def TRANSFORM_DICT : Nat → Bool × Bool × Bool
  | 0 => (false, false, false)
  | 1 => (false, true, true)
  | 2 => (true, true, false)
  | 3 => (true, false, true)
  | 4 => (true, false, false)
  | 5 => (false, false, true)
  | 6 => (false, true, false)
  | _ => (true, true, true)

/-- Source `MapTiler.UpdateGIDForRotation`: add the flip-flag constants selected by
`TRANSFORM_DICT[xForm]` to the gid. -/
def UpdateGIDForRotation (gid : Nat) (xForm : Nat) : Nat :=
  let fl := TRANSFORM_DICT xForm
  let gid1 := if fl.1 then gid + FLIPPED_HORIZONTALLY_FLAG else gid
  let gid2 := if fl.2.1 then gid1 + FLIPPED_VERTICALLY_FLAG else gid1
  if fl.2.2 then gid2 + FLIPPED_DIAGONALLY_FLAG else gid2

/-- Source `MapTiler.ExtractTileIndex`, exactly as written in the source:
`gid & FLIPPED_DIAGONALLY_FLAG & FLIPPED_HORIZONTALLY_FLAG & FLIPPED_DIAGONALLY_FLAG`
(a chain of bitwise ANDs, left associated). -/
def ExtractTileIndex (gid : Nat) : Nat :=
  gid &&& FLIPPED_DIAGONALLY_FLAG &&& FLIPPED_HORIZONTALLY_FLAG &&&
    FLIPPED_DIAGONALLY_FLAG

/-- The loop `k = 1; while k < N: k = k * 2` of
`MapTiler.FindNextPowerOfTwo`, specialized to its only call site
`FindNextPowerOfTwo(math.sqrt(tileCount))`.  For `k ≥ 1` and a natural
`U`, the comparison `k < math.sqrt(U)` is modelled exactly by the integer
test `k * k < U`.  The fuel argument only bounds the number of iterations;
`U` iterations always suffice (the loop runs at most `log₂ U + 1` times). -/
def findPow2SqrtAux : Nat → Nat → Nat → Nat
  | 0, _, k => k
  | fuel + 1, U, k => if k * k < U then findPow2SqrtAux fuel U (2 * k) else k

/-- Call `MapTiler.FindNextPowerOfTwo(math.sqrt(tileCount))` from
`MapTiler.ExportTileset`: the doubling loop started at `k = 1`. -/
def FindNextPowerOfTwoSqrt (U : Nat) : Nat := findPow2SqrtAux U U 1

/-- The loop
`while imageDimHeight * imageDimWidth > tileCount: imageDimHeight = imageDimHeight / 2`
from `MapTiler.ExportTileset` (note the strict `>`; `/` is Python 2 integer
floor division).  The fuel argument only bounds the number of iterations;
`H` iterations always suffice since `H` halves each time. -/
def halveHeightLoop : Nat → Nat → Nat → Nat → Nat
  | 0, _, _, H => H
  | fuel + 1, D, U, H =>
      if U < H * D then halveHeightLoop fuel D U (H / 2) else H

/-- The tileset grid-dimension computation of `MapTiler.ExportTileset`
(lines 549–563): returns `(imageDimWidth, imageDimHeight)` in tiles for
`tileCount` unique tiles.  In the source the halving ("space-saving",
rectangular) branch is the one taken when the `forceSquareTileset` flag is
set; the other branch keeps the square `D × D`. -/
def ExportTilesetDims (tileCount : Nat) (forceSquareTileset : Bool) :
    Nat × Nat :=
  let imageDimWidth := FindNextPowerOfTwoSqrt tileCount
  if forceSquareTileset then
    (imageDimWidth,
      (halveHeightLoop imageDimWidth imageDimWidth tileCount imageDimWidth) * 2)
  else
    (imageDimWidth, imageDimWidth)

/-- Predicate: `n` is a power of two. -/
def IsPow2 (n : Nat) : Prop := ∃ j : Nat, n = 2 ^ j

lemma isPow2_one : IsPow2 1 := ⟨0, rfl⟩

lemma isPow2_double {n : Nat} (h : IsPow2 n) : IsPow2 (2 * n) := by
  obtain ⟨j, rfl⟩ := h
  exact ⟨j + 1, by ring⟩

lemma isPow2_pos {n : Nat} (h : IsPow2 n) : 0 < n := by
  obtain ⟨j, rfl⟩ := h
  exact pow_pos (by norm_num) j

/-- Two powers of two with `k < p` satisfy `2 * k ≤ p`. -/
lemma isPow2_two_mul_le {k p : Nat} (hk : IsPow2 k) (hp : IsPow2 p)
    (h : k < p) : 2 * k ≤ p := by
  obtain ⟨a, rfl⟩ := hk
  obtain ⟨b, rfl⟩ := hp
  have hab : a < b := by
    by_contra hba
    push_neg at hba
    have hle : (2 : Nat) ^ b ≤ 2 ^ a := Nat.pow_le_pow_right (by norm_num) hba
    omega
  calc 2 * 2 ^ a = 2 ^ (a + 1) := by ring
    _ ≤ 2 ^ b := Nat.pow_le_pow_right (by norm_num) (by omega)

/-- Along the doubling loop, the result is a power of two. -/
lemma findPow2SqrtAux_isPow2 :
    ∀ fuel U k, IsPow2 k → IsPow2 (findPow2SqrtAux fuel U k) := by
  intro fuel
  induction fuel with
  | zero => intro U k hk; exact hk
  | succ n ih =>
      intro U k hk
      simp only [findPow2SqrtAux]
      split
      · exact ih U (2 * k) (isPow2_double hk)
      · exact hk

/-- If enough headroom remains (the fully doubled value already satisfies
the bound), the loop result `r` satisfies `U ≤ r * r`. -/
lemma findPow2SqrtAux_ge :
    ∀ fuel U k, U ≤ (k * 2 ^ fuel) * (k * 2 ^ fuel) →
      U ≤ findPow2SqrtAux fuel U k * findPow2SqrtAux fuel U k := by
  intro fuel
  induction fuel with
  | zero => intro U k h; simpa using h
  | succ n ih =>
      intro U k h
      simp only [findPow2SqrtAux]
      split
      · refine ih U (2 * k) ?_
        calc U ≤ (k * 2 ^ (n + 1)) * (k * 2 ^ (n + 1)) := h
          _ = (2 * k * 2 ^ n) * (2 * k * 2 ^ n) := by ring
      · omega

/-- Minimality invariant of the doubling loop: if every power of two `p`
with `U ≤ p * p` satisfies `k ≤ p` at entry, the same holds of the result. -/
lemma findPow2SqrtAux_least :
    ∀ fuel U k, IsPow2 k → (∀ p, IsPow2 p → U ≤ p * p → k ≤ p) →
      ∀ p, IsPow2 p → U ≤ p * p → findPow2SqrtAux fuel U k ≤ p := by
  intro fuel
  induction fuel with
  | zero => intro U k _ hinv p hp hU; exact hinv p hp hU
  | succ n ih =>
      intro U k hk hinv p hp hU
      simp only [findPow2SqrtAux]
      split
      · rename_i hlt
        refine ih U (2 * k) (isPow2_double hk) ?_ p hp hU
        intro q hq hUq
        have hkq : k ≤ q := hinv q hq hUq
        have hne : k ≠ q := by
          rintro rfl
          omega
        exact isPow2_two_mul_le hk hq (by omega)
      · exact hinv p hp hU

lemma findNextPowerOfTwoSqrt_isPow2 (U : Nat) :
    IsPow2 (FindNextPowerOfTwoSqrt U) :=
  findPow2SqrtAux_isPow2 U U 1 isPow2_one

lemma findNextPowerOfTwoSqrt_ge (U : Nat) :
    U ≤ FindNextPowerOfTwoSqrt U * FindNextPowerOfTwoSqrt U := by
  refine findPow2SqrtAux_ge U U 1 ?_
  have h2 : U < 2 ^ U := Nat.lt_two_pow U
  have h22 : 2 ^ U ≤ 2 ^ U * 2 ^ U :=
    Nat.le_mul_of_pos_left _ (pow_pos (by norm_num) U)
  calc U ≤ 2 ^ U := le_of_lt h2
    _ ≤ 2 ^ U * 2 ^ U := h22
    _ = (1 * 2 ^ U) * (1 * 2 ^ U) := by ring

lemma findNextPowerOfTwoSqrt_least (U : Nat) :
    ∀ p, IsPow2 p → U ≤ p * p → FindNextPowerOfTwoSqrt U ≤ p := by
  refine findPow2SqrtAux_least U U 1 isPow2_one ?_
  intro p hp _
  exact isPow2_pos hp

/-- The chosen width never exceeds the tile count (for `U ≥ 1`). -/
lemma findNextPowerOfTwoSqrt_le (U : Nat) (hU : 1 ≤ U) :
    FindNextPowerOfTwoSqrt U ≤ U := by
  obtain ⟨j, hj⟩ := findNextPowerOfTwoSqrt_isPow2 U
  by_contra hcon
  push_neg at hcon
  cases j with
  | zero => rw [hj] at hcon; omega
  | succ i =>
      have hD2 : FindNextPowerOfTwoSqrt U = 2 * 2 ^ i := by
        rw [hj, pow_succ]; ring
      have hmin : ¬ (U ≤ 2 ^ i * 2 ^ i) := by
        intro hle
        have hle2 := findNextPowerOfTwoSqrt_least U (2 ^ i) ⟨i, rfl⟩ hle
        rw [hD2] at hle2
        have hpos : 0 < 2 ^ i := pow_pos (by norm_num) i
        omega
      push_neg at hmin
      rw [hD2] at hcon
      rcases le_or_lt (2 ^ i) 1 with h1 | h2
      · have hone : (1:Nat) ≤ 2 ^ i := Nat.one_le_two_pow
        have heq : (2:Nat) ^ i = 1 := by omega
        rw [heq] at hmin hcon
        omega
      · have hmul : 2 * 2 ^ i ≤ 2 ^ i * 2 ^ i := Nat.mul_le_mul_right _ h2
        have : 2 * 2 ^ i < U := lt_of_le_of_lt hmul hmin
        omega

/-- Invariant of the halving loop: if `U < 2 * H * D` at entry, `H` is a
power of two and `D ≤ U`, then `U < 2 * r * D` for the result `r`.  This
holds for every fuel value. -/
lemma halveHeightLoop_invariant :
    ∀ fuel D U H, D ≤ U → IsPow2 H → U < 2 * H * D →
      U < 2 * halveHeightLoop fuel D U H * D := by
  intro fuel
  induction fuel with
  | zero => intro D U H _ _ h; exact h
  | succ n ih =>
      intro D U H hDU hH h
      simp only [halveHeightLoop]
      split
      · rename_i hlt
        obtain ⟨j, rfl⟩ := hH
        cases j with
        | zero => simp at hlt; omega
        | succ i =>
            have h2 : (2:Nat) ^ (i + 1) = 2 * 2 ^ i := by rw [pow_succ]; ring
            have hdiv : (2:Nat) ^ (i + 1) / 2 = 2 ^ i := by omega
            rw [hdiv]
            refine ih D U (2 ^ i) hDU ⟨i, rfl⟩ ?_
            calc U < 2 ^ (i + 1) * D := hlt
              _ = 2 * 2 ^ i * D := by rw [h2]
      · omega

/-- C1: the GID round-trip fails in the code.  `ExtractTileIndex` ANDs the
gid with `FLIPPED_DIAGONALLY_FLAG & FLIPPED_HORIZONTALLY_FLAG &
FLIPPED_DIAGONALLY_FLAG` instead of masking those bits off, and the
intersection of the two distinct single-bit constants is `0`, so decoding
returns `0` for every gid; in particular the round-trip already fails at
atlas index `0` with transform code `0`, where the encoded gid is `1` but
`ExtractTileIndex` returns `0` instead of `atlasIndex + 1 = 1`. -/
theorem extractTileIndex_always_zero :
    (∀ gid : Nat, ExtractTileIndex gid = 0) ∧
      ExtractTileIndex (UpdateGIDForRotation (0 + 1) 0) ≠ 0 + 1 := by
  have hall : ∀ gid : Nat, ExtractTileIndex gid = 0 := by
    intro gid
    have hconst : FLIPPED_DIAGONALLY_FLAG &&& FLIPPED_HORIZONTALLY_FLAG = 0 := by
      decide
    unfold ExtractTileIndex
    rw [Nat.land_assoc gid FLIPPED_DIAGONALLY_FLAG FLIPPED_HORIZONTALLY_FLAG,
      hconst, Nat.and_zero, Nat.zero_and]
  exact ⟨hall, by rw [hall]; decide⟩

/-- C4: evaluation of the rectangular ("space-saving") packing branch at
the failing input `U = 16`.  Here `D = 4`; the halving loop uses the
strict comparison `H * D > U`, so at the exact fit `4 * 4 = 16` it does
not halve and the final doubling yields `H = 8`, although `H = 4` (the
start value itself, obtained by zero halvings) already satisfies
`H * D ≥ U` and is smaller. -/
theorem exportTilesetDims_sixteen :
    ExportTilesetDims 16 true = (4, 8) ∧ 16 ≤ 4 * 4 ∧ (4 : Nat) < 8 := by
  decide

/-- C5: for every tile count `U ≥ 1` and either packing branch, the
computed grid satisfies `D * H ≥ U`; moreover the computed width (which is
the side of the square in the non-halving branch, where height = width) is
the smallest power of two `D` with `D * D ≥ U`. -/
lemma exportTilesetDims_false_eq (U : Nat) :
    ExportTilesetDims U false =
      (FindNextPowerOfTwoSqrt U, FindNextPowerOfTwoSqrt U) := rfl

lemma exportTilesetDims_true_eq (U : Nat) :
    ExportTilesetDims U true =
      (FindNextPowerOfTwoSqrt U,
        (halveHeightLoop (FindNextPowerOfTwoSqrt U) (FindNextPowerOfTwoSqrt U)
          U (FindNextPowerOfTwoSqrt U)) * 2) := rfl

theorem exportTilesetDims_fits (U : Nat) (hU : 1 ≤ U) (forceSquare : Bool) :
    U ≤ (ExportTilesetDims U forceSquare).1 * (ExportTilesetDims U forceSquare).2 ∧
    (ExportTilesetDims U false).2 = (ExportTilesetDims U false).1 ∧
    IsPow2 (ExportTilesetDims U forceSquare).1 ∧
    U ≤ (ExportTilesetDims U forceSquare).1 * (ExportTilesetDims U forceSquare).1 ∧
    (∀ p, IsPow2 p → U ≤ p * p → (ExportTilesetDims U forceSquare).1 ≤ p) := by
  have hpow := findNextPowerOfTwoSqrt_isPow2 U
  have hge := findNextPowerOfTwoSqrt_ge U
  have hleast := findNextPowerOfTwoSqrt_least U
  have hle := findNextPowerOfTwoSqrt_le U hU
  have hpos : 0 < FindNextPowerOfTwoSqrt U := isPow2_pos hpow
  cases forceSquare with
  | false =>
      rw [exportTilesetDims_false_eq]
      exact ⟨hge, rfl, hpow, hge, hleast⟩
  | true =>
      rw [exportTilesetDims_true_eq, exportTilesetDims_false_eq]
      refine ⟨?_, rfl, hpow, hge, hleast⟩
      have hentry : U < 2 * FindNextPowerOfTwoSqrt U * FindNextPowerOfTwoSqrt U := by
        have hsq : 0 < FindNextPowerOfTwoSqrt U * FindNextPowerOfTwoSqrt U :=
          Nat.mul_pos hpos hpos
        have hsplit : 2 * FindNextPowerOfTwoSqrt U * FindNextPowerOfTwoSqrt U =
            FindNextPowerOfTwoSqrt U * FindNextPowerOfTwoSqrt U +
            FindNextPowerOfTwoSqrt U * FindNextPowerOfTwoSqrt U := by ring
        omega
      have hinv := halveHeightLoop_invariant (FindNextPowerOfTwoSqrt U)
        (FindNextPowerOfTwoSqrt U) U (FindNextPowerOfTwoSqrt U) hle hpow hentry
      calc U ≤ 2 * halveHeightLoop (FindNextPowerOfTwoSqrt U)
            (FindNextPowerOfTwoSqrt U) U (FindNextPowerOfTwoSqrt U) *
            FindNextPowerOfTwoSqrt U := le_of_lt hinv
        _ = (FindNextPowerOfTwoSqrt U,
              (halveHeightLoop (FindNextPowerOfTwoSqrt U)
                (FindNextPowerOfTwoSqrt U) U (FindNextPowerOfTwoSqrt U)) * 2).1 *
            (FindNextPowerOfTwoSqrt U,
              (halveHeightLoop (FindNextPowerOfTwoSqrt U)
                (FindNextPowerOfTwoSqrt U) U (FindNextPowerOfTwoSqrt U)) * 2).2 := by
            simp; ring

/-! ## Images and the eight dihedral transforms -/

/-- An RGBA pixel (four channels, including alpha). -/
abbrev Pixel : Type := Nat × Nat × Nat × Nat

/-- A PIL image: pixel width, pixel height, and pixel lookup
(`px x y` for `x < w`, `y < h`; values outside that rectangle are junk the
code never reads). -/
structure Img where
  w : Nat
  h : Nat
  px : Nat → Nat → Pixel

/-- PIL `im.transpose(Image.FLIP_LEFT_RIGHT)`. -/
def flipLeftRight (im : Img) : Img :=
  ⟨im.w, im.h, fun x y => im.px (im.w - 1 - x) y⟩

/-- PIL `im.transpose(Image.ROTATE_90)` (PIL rotates 90° counterclockwise). -/
def rotate90 (im : Img) : Img :=
  ⟨im.h, im.w, fun x y => im.px (im.w - 1 - y) x⟩

/-- PIL `im.transpose(Image.ROTATE_180)`. -/
def rotate180 (im : Img) : Img :=
  ⟨im.w, im.h, fun x y => im.px (im.w - 1 - x) (im.h - 1 - y)⟩

/-- PIL `im.transpose(Image.ROTATE_270)` (270° counterclockwise). -/
def rotate270 (im : Img) : Img :=
  ⟨im.h, im.w, fun x y => im.px y (im.h - 1 - x)⟩

/-- PIL `im.size` (PIL reports `(width, height)`). -/
def Img.size (im : Img) : Nat × Nat := (im.w, im.h)

/-- Test `ImageChops.difference(a, b).getbbox() is None` for two images of the
same size: all pixels (all four channels, alpha included) coincide on the
common domain. -/
def pixEqb (a b : Img) : Bool :=
  (List.range a.h).all fun y => (List.range a.w).all fun x =>
    a.px x y == b.px x y

/-- Image equivalence as a proposition: equal dimensions and equal pixels
everywhere on the domain. -/
def SameImage (a b : Img) : Prop :=
  a.w = b.w ∧ a.h = b.h ∧ ∀ x y, x < a.w → y < a.h → a.px x y = b.px x y

lemma pixEqb_eq_true_iff (a b : Img) :
    pixEqb a b = true ↔ ∀ x y, x < a.w → y < a.h → a.px x y = b.px x y := by
  simp only [pixEqb, List.all_eq_true, List.mem_range, beq_iff_eq]
  exact ⟨fun h x y hx hy => h y hy x hx, fun h y hy x hx => h x y hx hy⟩

/-- Table `MapTiler.TRANSFORM_LIST`: `(xForm, mirrorX, rot90)` triples, in
iteration order. -/
def TRANSFORM_LIST : List (Nat × Bool × Nat) :=
  [(0, false, 0), (1, false, 1), (2, false, 2), (3, false, 3),
   (4, true, 0), (5, true, 1), (6, true, 2), (7, true, 3)]

/-- Body of the loop in `MapTiler.FindImageTransformation`: mirror
left-right first if `mirrorX`, then rotate by `rot90` quarter turns. -/
def transformOnce (mirrorX : Bool) (rot : Nat) (im2org : Img) : Img :=
  let im2 := if mirrorX then flipLeftRight im2org else im2org
  if rot = 1 then rotate90 im2
  else if rot = 2 then rotate180 im2
  else if rot = 3 then rotate270 im2
  else im2

/-- The loop of `MapTiler.FindImageTransformation` over the remaining
transform triples: a transform whose image size differs from `im1org` is
skipped (`continue`); the first `xForm` whose transformed image has no
pixel difference is returned; exhaustion returns `None`. -/
def findXformAux (im1org im2org : Img) : List (Nat × Bool × Nat) → Option Nat
  | [] => none
  | (xForm, mirrorX, rot) :: rest =>
    let im2 := transformOnce mirrorX rot im2org
    if im1org.size == im2.size then
      if pixEqb im1org im2 then some xForm
      else findXformAux im1org im2org rest
    else
      findXformAux im1org im2org rest

/-- Source `MapTiler.FindImageTransformation`: find a transform turning `im2org`
into `im1org`. -/
def FindImageTransformation (im1org im2org : Img) : Option Nat :=
  findXformAux im1org im2org TRANSFORM_LIST

/-- The dihedral transform denoted by code `t` (spec Table 1: codes 0–3
are the rotations by 0/90/180/270 of the original, codes 4–7 the same four
rotations applied after a horizontal mirror); each case is definitionally
the loop body `transformOnce mirrorX rot90` at the corresponding
`TRANSFORM_LIST` entry. -/
def applyXform : Nat → Img → Img
  | 0, im => im
  | 1, im => rotate90 im
  | 2, im => rotate180 im
  | 3, im => rotate270 im
  | 4, im => flipLeftRight im
  | 5, im => rotate90 (flipLeftRight im)
  | 6, im => rotate180 (flipLeftRight im)
  | 7, im => rotate270 (flipLeftRight im)
  | _, im => im

/-- The test performed by the canonicalizer loop for code `t`: the
transformed reference has the candidate's size and is pixel-identical to
the candidate. -/
def matchAt (t : Nat) (a b : Img) : Bool :=
  (a.size == (applyXform t b).size) && pixEqb a (applyXform t b)

lemma matchAt_eq_true_iff (t : Nat) (a b : Img) :
    matchAt t a b = true ↔ SameImage a (applyXform t b) := by
  unfold matchAt SameImage Img.size
  rw [Bool.and_eq_true, beq_iff_eq, pixEqb_eq_true_iff, Prod.mk.injEq]
  tauto

/-- Composition table of the eight dihedral transforms (transform `t`
applied first, then transform `s`). -/
def compX (s t : Nat) : Nat :=
  if s / 4 = 0 then (s % 4 + t % 4) % 4 + 4 * (t / 4)
  else (s % 4 + 4 - t % 4) % 4 + 4 * (1 - t / 4)

/-- Inverse in the dihedral group: rotations 90 and 270 swap, everything
else is an involution. -/
def invX : Nat → Nat
  | 1 => 3
  | 3 => 1
  | t => t

lemma compX_lt : ∀ s < 8, ∀ t < 8, compX s t < 8 := by decide

lemma invX_lt : ∀ t < 8, invX t < 8 := by decide

lemma compX_invX : ∀ t < 8, compX (invX t) t = 0 := by decide

lemma sameImage_refl (a : Img) : SameImage a a :=
  ⟨rfl, rfl, fun _ _ _ _ => rfl⟩

lemma sameImage_symm {a b : Img} (h : SameImage a b) : SameImage b a := by
  obtain ⟨hw, hh, hp⟩ := h
  exact ⟨hw.symm, hh.symm, fun x y hx hy =>
    (hp x y (by omega) (by omega)).symm⟩

lemma sameImage_trans {a b c : Img} (h1 : SameImage a b)
    (h2 : SameImage b c) : SameImage a c := by
  obtain ⟨hw1, hh1, hp1⟩ := h1
  obtain ⟨hw2, hh2, hp2⟩ := h2
  refine ⟨hw1.trans hw2, hh1.trans hh2, fun x y hx hy => ?_⟩
  rw [hp1 x y hx hy]
  exact hp2 x y (by omega) (by omega)

/-- Applying the same transform to equivalent images yields equivalent
images. -/
lemma sameImage_applyXform {a b : Img} (t : Nat) (ht : t < 8)
    (h : SameImage a b) : SameImage (applyXform t a) (applyXform t b) := by
  obtain ⟨hw, hh, hp⟩ := h
  interval_cases t <;>
    exact ⟨by simp only [applyXform, flipLeftRight, rotate90, rotate180,
             rotate270]; omega,
           by simp only [applyXform, flipLeftRight, rotate90, rotate180,
             rotate270]; omega,
           fun x y hx hy => by
             simp only [applyXform, flipLeftRight, rotate90, rotate180,
               rotate270] at hx hy ⊢
             first
               | exact hp _ _ (by omega) (by omega)
               | (rw [← hw]; exact hp _ _ (by omega) (by omega))
               | (rw [← hh]; exact hp _ _ (by omega) (by omega))
               | (rw [← hw, ← hh]; exact hp _ _ (by omega) (by omega))⟩

/-- Composing two of the eight transforms is again one of the eight, with
code given by `compX`. -/
lemma applyXform_comp : ∀ s, s < 8 → ∀ t, t < 8 → ∀ im,
    SameImage (applyXform s (applyXform t im)) (applyXform (compX s t) im) := by
  intro s hs t ht im
  interval_cases s <;> interval_cases t <;>
    · norm_num [compX]
      refine ⟨rfl, rfl, fun x y hx hy => ?_⟩
      simp only [applyXform, flipLeftRight, rotate90, rotate180, rotate270]
        at hx hy ⊢
      try first
        | rfl
        | (congr 2 <;> omega)

lemma ite_nest_and {α : Type} (c1 c2 : Bool) (x r : α) :
    (if c1 then (if c2 then x else r) else r) = (if c1 && c2 then x else r) := by
  cases c1 <;> cases c2 <;> simp

lemma findXformAux_cons (a b : Img) (x : Nat) (m : Bool) (r : Nat)
    (rest : List (Nat × Bool × Nat)) :
    findXformAux a b ((x, m, r) :: rest) =
      if (a.size == (transformOnce m r b).size) && pixEqb a (transformOnce m r b)
      then some x else findXformAux a b rest := by
  rw [← ite_nest_and]
  rfl

/-- The canonicalizer loop, written out over the eight codes in order. -/
lemma findImageTransformation_unfold (a b : Img) :
    FindImageTransformation a b =
      if matchAt 0 a b then some 0
      else if matchAt 1 a b then some 1
      else if matchAt 2 a b then some 2
      else if matchAt 3 a b then some 3
      else if matchAt 4 a b then some 4
      else if matchAt 5 a b then some 5
      else if matchAt 6 a b then some 6
      else if matchAt 7 a b then some 7
      else none := by
  show findXformAux a b TRANSFORM_LIST = _
  rw [show TRANSFORM_LIST = [(0, false, 0), (1, false, 1), (2, false, 2),
    (3, false, 3), (4, true, 0), (5, true, 1), (6, true, 2), (7, true, 3)]
    from rfl]
  rw [findXformAux_cons, findXformAux_cons, findXformAux_cons,
    findXformAux_cons, findXformAux_cons, findXformAux_cons,
    findXformAux_cons, findXformAux_cons]
  rfl

lemma findImageTransformation_lt_eight {a b : Img} {t : Nat}
    (h : FindImageTransformation a b = some t) : t < 8 := by
  rw [findImageTransformation_unfold] at h
  split_ifs at h <;>
    first
      | (injection h with h; omega)
      | exact Option.noConfusion h

lemma matchAt_eq_false_iff (t : Nat) (a b : Img) :
    matchAt t a b = false ↔ ¬ SameImage a (applyXform t b) := by
  rw [← matchAt_eq_true_iff]
  cases matchAt t a b <;> simp

/-- C2: the canonicalizer returns the lowest code `t < 8` such that the
transform `t` of the reference (second argument) equals the candidate
(first argument) in both pixel dimensions and every RGBA pixel; codes
whose transformed dimensions differ from the candidate's can never be
returned (`SameImage` requires equal dimensions); and it returns `none`
exactly when no code matches. -/
theorem findImageTransformation_spec (a b : Img) :
    (∀ t, t < 8 →
      (FindImageTransformation a b = some t ↔
        SameImage a (applyXform t b) ∧
          ∀ s, s < t → ¬ SameImage a (applyXform s b))) ∧
    (FindImageTransformation a b = none ↔
      ∀ t, t < 8 → ¬ SameImage a (applyXform t b)) ∧
    (∀ t, FindImageTransformation a b = some t → t < 8) := by
  refine ⟨?_, ?_, fun t h => findImageTransformation_lt_eight h⟩
  · intro t ht
    constructor
    · intro h
      rw [findImageTransformation_unfold] at h
      split_ifs at h with h0 h1 h2 h3 h4 h5 h6 h7 <;>
        first
          | exact Option.noConfusion h
          | (injection h with h
             subst h
             refine ⟨(matchAt_eq_true_iff _ _ _).mp (by assumption), ?_⟩
             intro s hs hc
             have hcm := (matchAt_eq_true_iff s a b).mpr hc
             interval_cases s <;> simp_all)
    · rintro ⟨hm, hmin⟩
      have hM : ∀ s, s < t → matchAt s a b = false := fun s hs =>
        (matchAt_eq_false_iff s a b).mpr (hmin s hs)
      have hMt : matchAt t a b = true := (matchAt_eq_true_iff t a b).mpr hm
      rw [findImageTransformation_unfold]
      interval_cases t
      · simp [hMt]
      · simp [hM 0 (by omega), hMt]
      · simp [hM 0 (by omega), hM 1 (by omega), hMt]
      · simp [hM 0 (by omega), hM 1 (by omega), hM 2 (by omega), hMt]
      · simp [hM 0 (by omega), hM 1 (by omega), hM 2 (by omega),
          hM 3 (by omega), hMt]
      · simp [hM 0 (by omega), hM 1 (by omega), hM 2 (by omega),
          hM 3 (by omega), hM 4 (by omega), hMt]
      · simp [hM 0 (by omega), hM 1 (by omega), hM 2 (by omega),
          hM 3 (by omega), hM 4 (by omega), hM 5 (by omega), hMt]
      · simp [hM 0 (by omega), hM 1 (by omega), hM 2 (by omega),
          hM 3 (by omega), hM 4 (by omega), hM 5 (by omega),
          hM 6 (by omega), hMt]
  · constructor
    · intro h t ht hc
      have hcm := (matchAt_eq_true_iff t a b).mpr hc
      rw [findImageTransformation_unfold] at h
      split_ifs at h with h0 h1 h2 h3 h4 h5 h6 h7 <;>
        first
          | exact Option.noConfusion h
          | (interval_cases t <;> simp_all)
    · intro hall
      have hM : ∀ s, s < 8 → matchAt s a b = false := fun s hs =>
        (matchAt_eq_false_iff s a b).mpr (hall s hs)
      rw [findImageTransformation_unfold]
      simp [hM 0 (by omega), hM 1 (by omega), hM 2 (by omega),
        hM 3 (by omega), hM 4 (by omega), hM 5 (by omega),
        hM 6 (by omega), hM 7 (by omega)]

/-- A concrete 1×1 test tile. -/
def oneTile : Img := ⟨1, 1, fun _ _ => (7, 7, 7, 255)⟩

/-- C9 counterexample: a 1×1 tile coincides with all of its own rotations,
so canonicalizing `(applyTransform(tile, 1), tile)` returns the lowest
matching code `0`, not `1` — the claim `= t` fails at `t = 1`. -/
theorem findImageTransformation_applyXform_ne :
    FindImageTransformation (applyXform 1 oneTile) oneTile = some 0 ∧
      (0 : Nat) ≠ 1 := by
  constructor
  · rfl
  · decide

/-- C9 amended: canonicalizing `(applyTransform(tile, t), tile)` returns
`some s` where `s` is the least code whose transform of the tile coincides
with `applyTransform(tile, t)` (so `s ≤ t`); it returns exactly `t`
whenever no smaller code's transform coincides (in particular for every
tile without coincident transforms). -/
theorem findImageTransformation_applyXform_least (im : Img) (t : Nat)
    (ht : t < 8) :
    (∃ s, s ≤ t ∧ FindImageTransformation (applyXform t im) im = some s ∧
      SameImage (applyXform t im) (applyXform s im) ∧
      ∀ u, u < s → ¬ SameImage (applyXform t im) (applyXform u im)) ∧
    ((∀ u, u < t → ¬ SameImage (applyXform t im) (applyXform u im)) →
      FindImageTransformation (applyXform t im) im = some t) := by
  obtain ⟨hsome, hnone, hlt⟩ := findImageTransformation_spec (applyXform t im) im
  have hmt : SameImage (applyXform t im) (applyXform t im) := sameImage_refl _
  have hne : FindImageTransformation (applyXform t im) im ≠ none := by
    intro h
    exact (hnone.mp h) t ht hmt
  obtain ⟨s, hs⟩ : ∃ s, FindImageTransformation (applyXform t im) im = some s := by
    cases hfind : FindImageTransformation (applyXform t im) im with
    | none => exact absurd hfind hne
    | some s => exact ⟨s, rfl⟩
  have hs8 : s < 8 := hlt s hs
  obtain ⟨hms, hmins⟩ := (hsome s hs8).mp hs
  have hst : s ≤ t := by
    by_contra hc
    push_neg at hc
    exact (hmins t hc) hmt
  refine ⟨⟨s, hst, hs, hms, hmins⟩, ?_⟩
  intro hnoearlier
  have hseq : s = t := by
    rcases Nat.lt_or_ge s t with hlt2 | hge
    · exact absurd hms (hnoearlier s hlt2)
    · omega
  rw [hseq] at hs
  exact hs

/-- C9 amended, witness at a concrete input: the 1×1 tile and `t = 1`. -/
theorem findImageTransformation_applyXform_least_witness :
    (1 : Nat) < 8 ∧
    ((∃ s, s ≤ 1 ∧ FindImageTransformation (applyXform 1 oneTile) oneTile = some s ∧
      SameImage (applyXform 1 oneTile) (applyXform s oneTile) ∧
      ∀ u, u < s → ¬ SameImage (applyXform 1 oneTile) (applyXform u oneTile)) ∧
    ((∀ u, u < 1 → ¬ SameImage (applyXform 1 oneTile) (applyXform u oneTile)) →
      FindImageTransformation (applyXform 1 oneTile) oneTile = some 1)) :=
  ⟨by decide, findImageTransformation_applyXform_least oneTile 1 (by decide)⟩

/-! ## The Atlas Builder (`CreateTileset`) -/

/-- Placeholder image for total lookup into the unique-tile list; the
source's `imageDict[i]` is only ever accessed with a valid key. -/
def dummyImg : Img := ⟨0, 0, fun _ _ => (0, 0, 0, 0)⟩

/-- PIL `Image.new('RGBA', (tileWidth, tileHeight), (0, 0, 0, 0))`: the fully
transparent empty tile reserved at index 0. -/
def emptyTile (tileWidth tileHeight : Nat) : Img :=
  ⟨tileWidth, tileHeight, fun _ _ => (0, 0, 0, 0)⟩

/-- PIL `im.crop((x0, y0, x1, y1))`: a `(x1 - x0) × (y1 - y0)` window with its
origin at `(x0, y0)` of the source image. -/
def Img.crop (im : Img) (x0 y0 x1 y1 : Nat) : Img :=
  ⟨x1 - x0, y1 - y0, fun x y => im.px (x0 + x) (y0 + y)⟩

/-- Source `MapTiler.CalculateSubimageRect` plus `ExtractSubimage`: cut cell
`idx` (row-major, `layerWidth` cells per row) out of a layer image. -/
def ExtractSubimage (layerWidth tileWidth tileHeight : Nat) (im : Img)
    (idx : Nat) : Img :=
  let row := idx / layerWidth
  let col := idx % layerWidth
  Img.crop im (col * tileWidth) (row * tileHeight)
    (col * tileWidth + tileWidth) (row * tileHeight + tileHeight)

/-- State threaded through `MapTiler.CreateTileset`: the unique-tile
dictionary `imageDict` (a list, index = key; `subimgIdx` is its length)
and the one-entry cache `lastTileMatchIndex`. -/
structure BuildState where
  images : List Img
  lastTileMatchIndex : Nat

/-- The inner scan `for desIdx in self.imageDict.keys()` of
`MapTiler.CreateTileset` with the `desIdx == lastTileMatchIndex` skip:
first matching index (with its transform), enumerating from `base`. -/
def scanImages (subimg : Img) (skip : Nat) : Nat → List Img → Option (Nat × Nat)
  | _, [] => none
  | i, img :: rest =>
    if i = skip then scanImages subimg skip (i + 1) rest
    else
      match FindImageTransformation subimg img with
      | some xForm => some (i, xForm)
      | none => scanImages subimg skip (i + 1) rest

/-- The same scan without the skip, as in
`CreateTiledFiles.CreateTileset` (the cache-less builder). -/
def scanImagesAll (subimg : Img) : Nat → List Img → Option (Nat × Nat)
  | _, [] => none
  | i, img :: rest =>
    match FindImageTransformation subimg img with
    | some xForm => some (i, xForm)
    | none => scanImagesAll subimg (i + 1) rest

/-- One cell of `MapTiler.CreateTileset`: try the cache entry first; on
miss scan the rest of the dictionary; on no match insert the tile at the
next index (the current dictionary size).  Returns the new state and the
recorded `(desIdx, xForm)` pair. -/
def processCell (st : BuildState) (subimg : Img) : BuildState × (Nat × Nat) :=
  match FindImageTransformation subimg
      (st.images.getD st.lastTileMatchIndex dummyImg) with
  | some xForm => (st, (st.lastTileMatchIndex, xForm))
  | none =>
    match scanImages subimg st.lastTileMatchIndex 0 st.images with
    | some (desIdx, xForm) =>
        ({ st with lastTileMatchIndex := desIdx }, (desIdx, xForm))
    | none =>
        ({ images := st.images ++ [subimg],
           lastTileMatchIndex := st.images.length },
         (st.images.length, 0))

/-- One cell of `CreateTiledFiles.CreateTileset` (no cache): scan the
whole dictionary in key order; insert on no match. -/
def processCellNoCache (images : List Img) (subimg : Img) :
    List Img × (Nat × Nat) :=
  match scanImagesAll subimg 0 images with
  | some (desIdx, xForm) => (images, (desIdx, xForm))
  | none => (images ++ [subimg], (images.length, 0))

/-- The cell loop `for idx in xrange(self.layerTiles)` of
`MapTiler.CreateTileset`, over an explicit list of extracted tiles. -/
def processTiles (st : BuildState) : List Img → BuildState × List (Nat × Nat)
  | [] => (st, [])
  | t :: ts =>
    let r1 := processCell st t
    let r2 := processTiles r1.1 ts
    (r2.1, r1.2 :: r2.2)

/-- The cell loop of the cache-less builder. -/
def processTilesNoCache (images : List Img) :
    List Img → List Img × List (Nat × Nat)
  | [] => (images, [])
  | t :: ts =>
    let r1 := processCellNoCache images t
    let r2 := processTilesNoCache r1.1 ts
    (r2.1, r1.2 :: r2.2)

/-- The tiles of one layer in processing order (row-major cells). -/
def layerCells (layerWidth layerTiles tileWidth tileHeight : Nat)
    (img : Img) : List Img :=
  (List.range layerTiles).map (ExtractSubimage layerWidth tileWidth tileHeight img)

/-- The layer loop of `MapTiler.CreateTileset`, producing the per-layer
grids of `(desIdx, xForm)` pairs. -/
def createTilesetAux (layerWidth layerTiles tileWidth tileHeight : Nat)
    (st : BuildState) : List Img → BuildState × List (List (Nat × Nat))
  | [] => (st, [])
  | img :: imgs =>
    let r1 := processTiles st (layerCells layerWidth layerTiles tileWidth tileHeight img)
    let r2 := createTilesetAux layerWidth layerTiles tileWidth tileHeight r1.1 imgs
    (r2.1, r1.2 :: r2.2)

/-- The layer loop of the cache-less builder. -/
def createTilesetNoCacheAux (layerWidth layerTiles tileWidth tileHeight : Nat)
    (images : List Img) : List Img → List Img × List (List (Nat × Nat))
  | [] => (images, [])
  | img :: imgs =>
    let r1 := processTilesNoCache images (layerCells layerWidth layerTiles tileWidth tileHeight img)
    let r2 := createTilesetNoCacheAux layerWidth layerTiles tileWidth tileHeight r1.1 imgs
    (r2.1, r1.2 :: r2.2)

/-- Source `MapTiler.CreateTileset`: the unique-tile set starts as the singleton
empty tile (index 0), `lastTileMatchIndex` starts at 0; layers are
processed in order, cells row-major. -/
def CreateTileset (layerWidth layerTiles tileWidth tileHeight : Nat)
    (layers : List Img) : BuildState × List (List (Nat × Nat)) :=
  createTilesetAux layerWidth layerTiles tileWidth tileHeight
    ⟨[emptyTile tileWidth tileHeight], 0⟩ layers

/-- Source `CreateTiledFiles.CreateTileset`: the cache-less builder with the same
initial unique-tile set. -/
def CreateTilesetNoCache (layerWidth layerTiles tileWidth tileHeight : Nat)
    (layers : List Img) : List Img × List (List (Nat × Nat)) :=
  createTilesetNoCacheAux layerWidth layerTiles tileWidth tileHeight
    [emptyTile tileWidth tileHeight] layers

/-- Tiles `a` and `b` are equivalent under one of the 8 dihedral
transforms. -/
def Matched (a b : Img) : Prop := ∃ t, t < 8 ∧ SameImage a (applyXform t b)

/-- No two distinct entries of the unique-tile list are related by any of
the 8 dihedral transforms. -/
def PairwiseDistinct (L : List Img) : Prop :=
  ∀ i j, i < L.length → j < L.length → i ≠ j →
    ¬ Matched (L.getD i dummyImg) (L.getD j dummyImg)

lemma matched_of_find_some {a b : Img} {x : Nat}
    (h : FindImageTransformation a b = some x) : Matched a b := by
  obtain ⟨hsome, _, hlt⟩ := findImageTransformation_spec a b
  have hx8 : x < 8 := hlt x h
  obtain ⟨hm, _⟩ := (hsome x hx8).mp h
  exact ⟨x, hx8, hm⟩

lemma find_none_iff_not_matched (a b : Img) :
    FindImageTransformation a b = none ↔ ¬ Matched a b := by
  obtain ⟨_, hnone, _⟩ := findImageTransformation_spec a b
  rw [hnone]
  constructor
  · rintro h ⟨t, ht, hm⟩
    exact h t ht hm
  · intro h t ht hm
    exact h ⟨t, ht, hm⟩

lemma find_ne_none_of_matched {a b : Img} (h : Matched a b) :
    FindImageTransformation a b ≠ none := by
  intro hc
  exact (find_none_iff_not_matched a b).mp hc h

lemma matched_symm {a b : Img} (h : Matched a b) : Matched b a := by
  obtain ⟨t, ht, hm⟩ := h
  refine ⟨invX t, invX_lt t ht, ?_⟩
  have h1 : SameImage (applyXform (invX t) a)
      (applyXform (invX t) (applyXform t b)) :=
    sameImage_applyXform (invX t) (invX_lt t ht) hm
  have h2 : SameImage (applyXform (invX t) (applyXform t b))
      (applyXform (compX (invX t) t) b) :=
    applyXform_comp (invX t) (invX_lt t ht) t ht b
  have h3 := sameImage_trans h1 h2
  rw [compX_invX t ht] at h3
  exact sameImage_symm h3

lemma matched_trans {a b c : Img} (h1 : Matched a b) (h2 : Matched b c) :
    Matched a c := by
  obtain ⟨s, hs, hm1⟩ := h1
  obtain ⟨t, ht, hm2⟩ := h2
  refine ⟨compX s t, compX_lt s hs t ht, ?_⟩
  have h3 : SameImage (applyXform s b) (applyXform s (applyXform t c)) :=
    sameImage_applyXform s hs hm2
  have h4 : SameImage (applyXform s (applyXform t c))
      (applyXform (compX s t) c) :=
    applyXform_comp s hs t ht c
  exact sameImage_trans hm1 (sameImage_trans h3 h4)

/-- A candidate matches at most one entry of a pairwise-distinct list. -/
lemma matched_unique {L : List Img} (hL : PairwiseDistinct L) {t : Img}
    {i j : Nat} (hi : i < L.length) (hj : j < L.length)
    (hmi : Matched t (L.getD i dummyImg))
    (hmj : Matched t (L.getD j dummyImg)) : i = j := by
  by_contra hne
  exact hL i j hi hj hne (matched_trans (matched_symm hmi) hmj)

lemma scanImagesAll_none_iff (t : Img) :
    ∀ (L : List Img) (base : Nat),
      scanImagesAll t base L = none ↔
        ∀ j, j < L.length →
          FindImageTransformation t (L.getD j dummyImg) = none := by
  intro L
  induction L with
  | nil => intro base; simp [scanImagesAll]
  | cons img rest ih =>
      intro base
      simp only [scanImagesAll]
      cases hf : FindImageTransformation t img with
      | some x =>
          constructor
          · intro h
            exact absurd h (by simp)
          · intro h
            have h0 := h 0 (by simp)
            rw [List.getD_cons_zero] at h0
            exact absurd hf (by rw [h0]; simp)
      | none =>
          rw [ih (base + 1)]
          constructor
          · intro h j hj
            cases j with
            | zero => rw [List.getD_cons_zero]; exact hf
            | succ j' =>
                rw [List.getD_cons_succ]
                exact h j' (by simpa using hj)
          · intro h j hj
            have := h (j + 1) (by simp; omega)
            rw [List.getD_cons_succ] at this
            exact this

lemma scanImagesAll_some_spec (t : Img) :
    ∀ (L : List Img) (base i x : Nat),
      scanImagesAll t base L = some (i, x) →
        base ≤ i ∧ i - base < L.length ∧
        FindImageTransformation t (L.getD (i - base) dummyImg) = some x ∧
        ∀ j, j < i - base →
          FindImageTransformation t (L.getD j dummyImg) = none := by
  intro L
  induction L with
  | nil => intro base i x h; simp [scanImagesAll] at h
  | cons img rest ih =>
      intro base i x h
      simp only [scanImagesAll] at h
      cases hf : FindImageTransformation t img with
      | some x' =>
          rw [hf] at h
          have hbi : base = i := congrArg Prod.fst (Option.some.inj h)
          have hxx : x' = x := congrArg Prod.snd (Option.some.inj h)
          subst hbi
          subst hxx
          refine ⟨le_refl _, by simp, ?_, ?_⟩
          · rw [Nat.sub_self, List.getD_cons_zero]; exact hf
          · intro j hj; omega
      | none =>
          rw [hf] at h
          obtain ⟨h1, h2, h3, h4⟩ := ih (base + 1) i x h
          refine ⟨by omega, by simp only [List.length_cons]; omega, ?_, ?_⟩
          · have heq : i - base = (i - (base + 1)) + 1 := by omega
            rw [heq, List.getD_cons_succ]
            exact h3
          · intro j hj
            cases j with
            | zero => rw [List.getD_cons_zero]; exact hf
            | succ j' =>
                rw [List.getD_cons_succ]
                exact h4 j' (by omega)

lemma scanImages_none_iff (t : Img) (skip : Nat) :
    ∀ (L : List Img) (base : Nat),
      scanImages t skip base L = none ↔
        ∀ j, j < L.length → base + j ≠ skip →
          FindImageTransformation t (L.getD j dummyImg) = none := by
  intro L
  induction L with
  | nil => intro base; simp [scanImages]
  | cons img rest ih =>
      intro base
      simp only [scanImages]
      by_cases hbs : base = skip
      · rw [if_pos hbs, ih (base + 1)]
        constructor
        · intro h j hj hjs
          cases j with
          | zero => omega
          | succ j' =>
              rw [List.getD_cons_succ]
              exact h j' (by simpa using hj) (by omega)
        · intro h j hj hjs
          have := h (j + 1) (by simp; omega) (by omega)
          rw [List.getD_cons_succ] at this
          exact this
      · rw [if_neg hbs]
        cases hf : FindImageTransformation t img with
        | some x =>
            constructor
            · intro h
              exact absurd h (by simp)
            · intro h
              have h0 := h 0 (by simp) (by omega)
              rw [List.getD_cons_zero] at h0
              exact absurd hf (by rw [h0]; simp)
        | none =>
            rw [ih (base + 1)]
            constructor
            · intro h j hj hjs
              cases j with
              | zero => rw [List.getD_cons_zero]; exact hf
              | succ j' =>
                  rw [List.getD_cons_succ]
                  exact h j' (by simpa using hj) (by omega)
            · intro h j hj hjs
              have := h (j + 1) (by simp; omega) (by omega)
              rw [List.getD_cons_succ] at this
              exact this

lemma scanImages_some_spec (t : Img) (skip : Nat) :
    ∀ (L : List Img) (base i x : Nat),
      scanImages t skip base L = some (i, x) →
        base ≤ i ∧ i - base < L.length ∧ i ≠ skip ∧
        FindImageTransformation t (L.getD (i - base) dummyImg) = some x ∧
        ∀ j, j < i - base → base + j ≠ skip →
          FindImageTransformation t (L.getD j dummyImg) = none := by
  intro L
  induction L with
  | nil => intro base i x h; simp [scanImages] at h
  | cons img rest ih =>
      intro base i x h
      simp only [scanImages] at h
      by_cases hbs : base = skip
      · rw [if_pos hbs] at h
        obtain ⟨h1, h2, h3, h4, h5⟩ := ih (base + 1) i x h
        refine ⟨by omega, by simp only [List.length_cons]; omega, h3, ?_, ?_⟩
        · have heq : i - base = (i - (base + 1)) + 1 := by omega
          rw [heq, List.getD_cons_succ]
          exact h4
        · intro j hj hjs
          cases j with
          | zero => omega
          | succ j' =>
              rw [List.getD_cons_succ]
              exact h5 j' (by omega) (by omega)
      · rw [if_neg hbs] at h
        cases hf : FindImageTransformation t img with
        | some x' =>
            rw [hf] at h
            have hbi : base = i := congrArg Prod.fst (Option.some.inj h)
            have hxx : x' = x := congrArg Prod.snd (Option.some.inj h)
            subst hbi
            subst hxx
            refine ⟨le_refl _, by simp, by omega, ?_, ?_⟩
            · rw [Nat.sub_self, List.getD_cons_zero]; exact hf
            · intro j hj; omega
        | none =>
            rw [hf] at h
            obtain ⟨h1, h2, h3, h4, h5⟩ := ih (base + 1) i x h
            refine ⟨by omega, by simp only [List.length_cons]; omega, h3, ?_, ?_⟩
            · have heq : i - base = (i - (base + 1)) + 1 := by omega
              rw [heq, List.getD_cons_succ]
              exact h4
            · intro j hj hjs
              cases j with
              | zero => rw [List.getD_cons_zero]; exact hf
              | succ j' =>
                  rw [List.getD_cons_succ]
                  exact h5 j' (by omega) (by omega)

/-- Per-cell equivalence of the cached and cache-less builders, together
with preservation of the builder invariants (valid cache index and
pairwise-distinct unique-tile set). -/
lemma processCell_eq (st : BuildState) (t : Img)
    (hlast : st.lastTileMatchIndex < st.images.length)
    (hinv : PairwiseDistinct st.images) :
    (processCell st t).1.images = (processCellNoCache st.images t).1 ∧
    (processCell st t).2 = (processCellNoCache st.images t).2 ∧
    (processCell st t).1.lastTileMatchIndex <
      (processCell st t).1.images.length ∧
    PairwiseDistinct (processCell st t).1.images := by
  cases hc : FindImageTransformation t
      (st.images.getD st.lastTileMatchIndex dummyImg) with
  | some x =>
      have hmk : Matched t (st.images.getD st.lastTileMatchIndex dummyImg) :=
        matched_of_find_some hc
      cases hsa : scanImagesAll t 0 st.images with
      | none =>
          have hn := (scanImagesAll_none_iff t st.images 0).mp hsa
            st.lastTileMatchIndex hlast
          rw [hn] at hc
          exact Option.noConfusion hc
      | some p =>
          obtain ⟨i', x'⟩ := p
          obtain ⟨_, h2, h3, _⟩ := scanImagesAll_some_spec t st.images 0 i' x' hsa
          rw [Nat.sub_zero] at h2 h3
          have heq : i' = st.lastTileMatchIndex :=
            matched_unique hinv h2 hlast (matched_of_find_some h3) hmk
          subst heq
          have hxx : x' = x := by
            rw [hc] at h3
            exact (Option.some.inj h3).symm
          subst hxx
          refine ⟨?_, ?_, ?_, ?_⟩
          · simp only [processCell, processCellNoCache, hc, hsa]
          · simp only [processCell, processCellNoCache, hc, hsa]
          · simp only [processCell, hc]
            exact hlast
          · simp only [processCell, hc]
            exact hinv
  | none =>
      cases hss : scanImages t st.lastTileMatchIndex 0 st.images with
      | some p =>
          obtain ⟨i, x⟩ := p
          obtain ⟨_, h2, hik, h3, _⟩ :=
            scanImages_some_spec t st.lastTileMatchIndex st.images 0 i x hss
          rw [Nat.sub_zero] at h2 h3
          cases hsa : scanImagesAll t 0 st.images with
          | none =>
              have hn := (scanImagesAll_none_iff t st.images 0).mp hsa i h2
              rw [hn] at h3
              exact Option.noConfusion h3
          | some q =>
              obtain ⟨i', x'⟩ := q
              obtain ⟨_, h2', h3', _⟩ :=
                scanImagesAll_some_spec t st.images 0 i' x' hsa
              rw [Nat.sub_zero] at h2' h3'
              have heq : i' = i := matched_unique hinv h2' h2
                (matched_of_find_some h3') (matched_of_find_some h3)
              subst heq
              have hxx : x' = x := by
                rw [h3] at h3'
                exact (Option.some.inj h3').symm
              subst hxx
              refine ⟨?_, ?_, ?_, ?_⟩
              · simp only [processCell, processCellNoCache, hc, hss, hsa]
              · simp only [processCell, processCellNoCache, hc, hss, hsa]
              · simp only [processCell, hc, hss]
                simpa using h2'
              · simp only [processCell, hc, hss]
                exact hinv
      | none =>
          have hallnone : ∀ j, j < st.images.length →
              FindImageTransformation t (st.images.getD j dummyImg) = none := by
            intro j hj
            by_cases hjk : j = st.lastTileMatchIndex
            · rw [hjk]; exact hc
            · exact (scanImages_none_iff t st.lastTileMatchIndex st.images 0).mp
                hss j hj (by omega)
          have hsa : scanImagesAll t 0 st.images = none :=
            (scanImagesAll_none_iff t st.images 0).mpr hallnone
          refine ⟨?_, ?_, ?_, ?_⟩
          · simp only [processCell, processCellNoCache, hc, hss, hsa]
          · simp only [processCell, processCellNoCache, hc, hss, hsa]
          · simp only [processCell, hc, hss]
            simp
          · simp only [processCell, hc, hss]
            intro i j hi hj hne hm
            simp only [List.length_append, List.length_singleton] at hi hj
            rcases Nat.lt_or_ge i st.images.length with hi' | hi' <;>
              rcases Nat.lt_or_ge j st.images.length with hj' | hj'
            · rw [List.getD_append _ _ _ _ hi', List.getD_append _ _ _ _ hj'] at hm
              exact hinv i j hi' hj' hne hm
            · have hjlen : j = st.images.length := by omega
              subst hjlen
              rw [List.getD_append _ _ _ _ hi',
                List.getD_append_right _ _ _ _ (le_refl _), Nat.sub_self,
                List.getD_cons_zero] at hm
              exact find_ne_none_of_matched (matched_symm hm) (hallnone i hi')
            · have hilen : i = st.images.length := by
                omega
              subst hilen
              rw [List.getD_append _ _ _ _ hj',
                List.getD_append_right _ _ _ _ (le_refl _), Nat.sub_self,
                List.getD_cons_zero] at hm
              exact find_ne_none_of_matched hm (hallnone j hj')
            · omega

/-- The cell loop preserves the builder invariants and produces the same
unique-tile set and the same per-cell pairs as the cache-less loop. -/
lemma processTiles_eq : ∀ (ts : List Img) (st : BuildState),
    st.lastTileMatchIndex < st.images.length →
    PairwiseDistinct st.images →
    (processTiles st ts).1.images = (processTilesNoCache st.images ts).1 ∧
    (processTiles st ts).2 = (processTilesNoCache st.images ts).2 ∧
    (processTiles st ts).1.lastTileMatchIndex <
      (processTiles st ts).1.images.length ∧
    PairwiseDistinct (processTiles st ts).1.images := by
  intro ts
  induction ts with
  | nil => intro st h1 h2; exact ⟨rfl, rfl, h1, h2⟩
  | cons t ts ih =>
      intro st h1 h2
      obtain ⟨e1, e2, h1', h2'⟩ := processCell_eq st t h1 h2
      obtain ⟨f1, f2, g1, g2⟩ := ih (processCell st t).1 h1' h2'
      simp only [processTiles, processTilesNoCache]
      refine ⟨?_, ?_, g1, g2⟩
      · rw [f1, e1]
      · rw [e2, f2, e1]

/-- The layer loop: same equivalence and invariants. -/
lemma createTilesetAux_eq (layerWidth layerTiles tileWidth tileHeight : Nat) :
    ∀ (layers : List Img) (st : BuildState),
      st.lastTileMatchIndex < st.images.length →
      PairwiseDistinct st.images →
      (createTilesetAux layerWidth layerTiles tileWidth tileHeight st layers).1.images =
        (createTilesetNoCacheAux layerWidth layerTiles tileWidth tileHeight
          st.images layers).1 ∧
      (createTilesetAux layerWidth layerTiles tileWidth tileHeight st layers).2 =
        (createTilesetNoCacheAux layerWidth layerTiles tileWidth tileHeight
          st.images layers).2 ∧
      (createTilesetAux layerWidth layerTiles tileWidth tileHeight st layers).1.lastTileMatchIndex <
        (createTilesetAux layerWidth layerTiles tileWidth tileHeight st layers).1.images.length ∧
      PairwiseDistinct
        (createTilesetAux layerWidth layerTiles tileWidth tileHeight st layers).1.images := by
  intro layers
  induction layers with
  | nil => intro st h1 h2; exact ⟨rfl, rfl, h1, h2⟩
  | cons img imgs ih =>
      intro st h1 h2
      obtain ⟨e1, e2, h1', h2'⟩ := processTiles_eq
        (layerCells layerWidth layerTiles tileWidth tileHeight img) st h1 h2
      obtain ⟨f1, f2, g1, g2⟩ := ih
        (processTiles st (layerCells layerWidth layerTiles tileWidth tileHeight img)).1
        h1' h2'
      simp only [createTilesetAux, createTilesetNoCacheAux]
      refine ⟨?_, ?_, g1, g2⟩
      · rw [f1, e1]
      · rw [e2, f2, e1]

lemma initState_last_lt (tileWidth tileHeight : Nat) :
    (BuildState.mk [emptyTile tileWidth tileHeight] 0).lastTileMatchIndex <
      (BuildState.mk [emptyTile tileWidth tileHeight] 0).images.length := by
  simp

lemma initState_distinct (tileWidth tileHeight : Nat) :
    PairwiseDistinct (BuildState.mk [emptyTile tileWidth tileHeight] 0).images := by
  intro i j hi hj hne hm
  simp only [List.length_singleton] at hi hj
  omega

/-- C3: the one-entry "last match" cache never alters output.  For every
layer sequence and grid parameters, the cached builder
(`MapTiler.CreateTileset`) and the cache-less builder
(`CreateTiledFiles.CreateTileset`, which scans the unique-tile set for
every cell) produce exactly the same unique-tile set and exactly the same
per-cell `(atlasIndex, transformCode)` assignments. -/
theorem createTileset_cache_irrelevant
    (layerWidth layerTiles tileWidth tileHeight : Nat) (layers : List Img) :
    (CreateTileset layerWidth layerTiles tileWidth tileHeight layers).1.images =
      (CreateTilesetNoCache layerWidth layerTiles tileWidth tileHeight layers).1 ∧
    (CreateTileset layerWidth layerTiles tileWidth tileHeight layers).2 =
      (CreateTilesetNoCache layerWidth layerTiles tileWidth tileHeight layers).2 := by
  obtain ⟨e1, e2, _, _⟩ := createTilesetAux_eq layerWidth layerTiles tileWidth
    tileHeight layers (BuildState.mk [emptyTile tileWidth tileHeight] 0)
    (initState_last_lt tileWidth tileHeight)
    (initState_distinct tileWidth tileHeight)
  exact ⟨e1, e2⟩

lemma processCell_growth (st : BuildState) (t : Img) :
    (processCell st t).1.images = st.images ∨
    ((processCell st t).1.images = st.images ++ [t] ∧
      (processCell st t).2 = (st.images.length, 0)) := by
  cases hc : FindImageTransformation t
      (st.images.getD st.lastTileMatchIndex dummyImg) with
  | some x =>
      left
      simp only [processCell, hc]
  | none =>
      cases hs : scanImages t st.lastTileMatchIndex 0 st.images with
      | some p =>
          obtain ⟨d, xf⟩ := p
          left
          simp only [processCell, hc, hs]
      | none =>
          right
          refine ⟨?_, ?_⟩ <;> simp only [processCell, hc, hs]

lemma processTiles_growth : ∀ (ts : List Img) (st : BuildState), ∃ suffix,
    (processTiles st ts).1.images = st.images ++ suffix := by
  intro ts
  induction ts with
  | nil => intro st; exact ⟨[], by simp [processTiles]⟩
  | cons t ts ih =>
      intro st
      obtain ⟨s2, h2⟩ := ih (processCell st t).1
      rcases processCell_growth st t with h1 | ⟨h1, _⟩
      · refine ⟨s2, ?_⟩
        simp only [processTiles]
        rw [h2, h1]
      · refine ⟨[t] ++ s2, ?_⟩
        simp only [processTiles]
        rw [h2, h1]
        simp

lemma createTilesetAux_growth (layerWidth layerTiles tileWidth tileHeight : Nat) :
    ∀ (layers : List Img) (st : BuildState), ∃ suffix,
      (createTilesetAux layerWidth layerTiles tileWidth tileHeight st layers).1.images =
        st.images ++ suffix := by
  intro layers
  induction layers with
  | nil => intro st; exact ⟨[], by simp [createTilesetAux]⟩
  | cons img imgs ih =>
      intro st
      obtain ⟨s1, h1⟩ := processTiles_growth
        (layerCells layerWidth layerTiles tileWidth tileHeight img) st
      obtain ⟨s2, h2⟩ := ih
        (processTiles st (layerCells layerWidth layerTiles tileWidth tileHeight img)).1
      refine ⟨s1 ++ s2, ?_⟩
      simp only [createTilesetAux]
      rw [h2, h1]
      simp

/-- C8: the unique-tile set grows purely.  Each cell step either leaves
the set untouched or appends exactly the processed tile at the end, and a
tile is inserted precisely at the next sequential index (the current set
size) with transform code 0; consequently any processed state's set is
the initial set plus a suffix (never mutated, pruned or re-ordered), and
over a whole build the set is the fully-transparent empty tile at index 0
followed by the new tiles in first-seen order. -/
theorem createTileset_pure_growth :
    (∀ (st : BuildState) (t : Img),
      (processCell st t).1.images = st.images ∨
      ((processCell st t).1.images = st.images ++ [t] ∧
        (processCell st t).2 = (st.images.length, 0))) ∧
    (∀ (ts : List Img) (st : BuildState), ∃ suffix,
      (processTiles st ts).1.images = st.images ++ suffix) ∧
    (∀ layerWidth layerTiles tileWidth tileHeight (layers : List Img), ∃ suffix,
      (CreateTileset layerWidth layerTiles tileWidth tileHeight layers).1.images =
        emptyTile tileWidth tileHeight :: suffix) := by
  refine ⟨processCell_growth, processTiles_growth, ?_⟩
  intro layerWidth layerTiles tileWidth tileHeight layers
  obtain ⟨suffix, h⟩ := createTilesetAux_growth layerWidth layerTiles tileWidth
    tileHeight layers (BuildState.mk [emptyTile tileWidth tileHeight] 0)
  exact ⟨suffix, by simpa using h⟩

/-- C10: at every point of a build the unique-tile set is pairwise
non-equivalent under the 8 dihedral transforms: the property holds of the
initial set, is preserved by every cell step (hence holds at every
intermediate point), and holds of the final set of a whole build;
consequently a candidate tile matches at most one atlas index, whatever
order the set is scanned in. -/
theorem createTileset_pairwise_distinct :
    (∀ (st : BuildState) (t : Img),
      st.lastTileMatchIndex < st.images.length → PairwiseDistinct st.images →
      PairwiseDistinct (processCell st t).1.images) ∧
    (∀ (ts : List Img) (st : BuildState),
      st.lastTileMatchIndex < st.images.length → PairwiseDistinct st.images →
      PairwiseDistinct (processTiles st ts).1.images) ∧
    (∀ layerWidth layerTiles tileWidth tileHeight (layers : List Img),
      PairwiseDistinct
        (CreateTileset layerWidth layerTiles tileWidth tileHeight layers).1.images) ∧
    (∀ (L : List Img), PairwiseDistinct L → ∀ (t : Img) (i j : Nat),
      i < L.length → j < L.length →
      Matched t (L.getD i dummyImg) → Matched t (L.getD j dummyImg) → i = j) := by
  refine ⟨?_, ?_, ?_, ?_⟩
  · intro st t h1 h2
    exact (processCell_eq st t h1 h2).2.2.2
  · intro ts st h1 h2
    exact (processTiles_eq ts st h1 h2).2.2.2
  · intro layerWidth layerTiles tileWidth tileHeight layers
    exact (createTilesetAux_eq layerWidth layerTiles tileWidth tileHeight layers
      (BuildState.mk [emptyTile tileWidth tileHeight] 0)
      (initState_last_lt tileWidth tileHeight)
      (initState_distinct tileWidth tileHeight)).2.2.2
  · intro L hL t i j hi hj hmi hmj
    exact matched_unique hL hi hj hmi hmj

/-- C10 witness: the invariant and the uniqueness consequence evaluated on
a concrete state (the initial one-tile set after inserting one 1×1 tile). -/
theorem createTileset_pairwise_distinct_witness :
    ((BuildState.mk [emptyTile 1 1] 0).lastTileMatchIndex <
      (BuildState.mk [emptyTile 1 1] 0).images.length ∧
      PairwiseDistinct (BuildState.mk [emptyTile 1 1] 0).images) ∧
    PairwiseDistinct (processCell (BuildState.mk [emptyTile 1 1] 0) oneTile).1.images := by
  refine ⟨⟨initState_last_lt 1 1, initState_distinct 1 1⟩, ?_⟩
  exact createTileset_pairwise_distinct.1 (BuildState.mk [emptyTile 1 1] 0) oneTile
    (initState_last_lt 1 1) (initState_distinct 1 1)

/-! ## The Tiled document, merge checks and merging -/

/-- One `<tile>` element of a layer's `<data>` block: its `gid` attribute
and its other attributes. -/
structure XTile where
  gid : Nat
  attrs : List (String × String)
deriving DecidableEq, Inhabited

/-- One `<layer>` element: its `name` attribute, its other attributes and
its `<data>` tiles. -/
structure XLayer where
  name : String
  attrs : List (String × String)
  tiles : List XTile
deriving DecidableEq

/-- One `<tileset>` element: the `source` attributes of its `<image>`
children, plus its other attributes. -/
structure XTileset where
  images : List String
  attrs : List (String × String)
deriving DecidableEq, Inhabited

/-- A parsed Tiled document (the `<map>` root): the root `width`/`height`
cell-grid attributes, the other root attributes, the tilesets and the
layers. -/
structure TiledDoc where
  width : Nat
  height : Nat
  rootAttrs : List (String × String)
  tilesets : List XTileset
  layers : List XLayer
deriving DecidableEq

/-- The gid value written for a `(gid, xForm)` assignment pair: `0` for
the empty tile, else `UpdateGIDForRotation(gid + 1, xForm)` (shared by
`CreateXMLLayer` and `MergeTiledFiles`). -/
def gidValue (pair : Nat × Nat) : Nat :=
  if pair.1 = 0 then 0 else UpdateGIDForRotation (pair.1 + 1) pair.2

/-- Source `MapTiler.CreateXMLLayer`: a fresh `<layer>` block with width/height
attributes and one `<tile>` per cell of the new build. -/
def CreateXMLLayer (layerWidth layerHeight layerTiles : Nat)
    (assign : Nat → Nat × Nat) (layerName : String) : XLayer :=
  { name := layerName,
    attrs := [("width", toString layerWidth), ("height", toString layerHeight)],
    tiles := (List.range layerTiles).map fun idx => ⟨gidValue (assign idx), []⟩ }

/-- The loop `for idx in xrange(len(tiles)): tile.attrib["gid"] = ...` of
`MergeTiledFiles`: overwrite each tile's gid, by index, with the new
build's value; every other tile attribute stays. -/
def updateTilesFrom (assign : Nat → Nat × Nat) : Nat → List XTile → List XTile
  | _, [] => []
  | idx, t :: ts =>
      { t with gid := gidValue (assign idx) } :: updateTilesFrom assign (idx + 1) ts

/-- In-place gid update of one existing layer. -/
def updateLayerTiles (assign : Nat → Nat × Nat) (l : XLayer) : XLayer :=
  { l with tiles := updateTilesFrom assign 0 l.tiles }

/-- Update the last layer carrying the given name (Python's
`outLayers = {layer.attrib['name']: layer for layer in layers}` keeps, for
a duplicated name, the last element, and the update mutates that
element). -/
def updateLastByName (lname : String) (f : XLayer → XLayer) :
    List XLayer → List XLayer
  | [] => []
  | l :: ls =>
      if l.name = lname ∧ lname ∉ ls.map XLayer.name then f l :: ls
      else l :: updateLastByName lname f ls

/-- The body of the `for lname in self.layerNames` loop of
`MapTiler.MergeTiledFiles`; `origNames` is the layer-name index built once
from the pre-existing document before the loop: an existing layer gets its
gids updated in place, an unknown name gets a fresh layer block appended. -/
def mergeStep (layerWidth layerHeight layerTiles : Nat)
    (layerDict : String → Nat → Nat × Nat) (origNames : List String)
    (d : TiledDoc) (lname : String) : TiledDoc :=
  if lname ∈ origNames then
    { d with layers :=
        updateLastByName lname (updateLayerTiles (layerDict lname)) d.layers }
  else
    { d with layers := d.layers ++
        [CreateXMLLayer layerWidth layerHeight layerTiles (layerDict lname) lname] }

/-- Source `MapTiler.MergeTiledFiles`: parse the existing document, index its
layers by name once, then for every built layer name update or append. -/
def MergeTiledFiles (layerWidth layerHeight layerTiles : Nat)
    (layerNames : List String) (layerDict : String → Nat → Nat × Nat)
    (doc : TiledDoc) : TiledDoc :=
  layerNames.foldl
    (mergeStep layerWidth layerHeight layerTiles layerDict
      (doc.layers.map XLayer.name))
    doc

/-- Source `MapTiler.CheckMergingFiles`: the pre-merge validation of the existing
document against the new build.  Returns `True` (no problem) when the
output document does not exist or no merge was requested; otherwise the
grid dimensions must match, the document must contain exactly one tileset,
that tileset exactly one image, and the image source must equal the atlas
file about to be produced. -/
def CheckMergingFiles (outTiledFileExists mergeExisting : Bool)
    (doc : TiledDoc) (layerWidth layerHeight : Nat)
    (outTilesetFile : String) : Bool :=
  if !outTiledFileExists then true
  else if !mergeExisting then true
  else if doc.width ≠ layerWidth then false
  else if doc.height ≠ layerHeight then false
  else if doc.tilesets.length = 0 then false
  else if 1 < doc.tilesets.length then false
  else
    let images := (doc.tilesets.getD 0 default).images
    if images.length = 0 then false
    else if 1 < images.length then false
    else if images.getD 0 "" ≠ outTilesetFile then false
    else true

/-- The write effects the build can perform. -/
inductive WriteEffect where
  | writeTileset : WriteEffect
  | writeTiled : WriteEffect
deriving DecidableEq

/-- The main path of `MapTiler.ProcessInputs`, abstracted to its
check-then-act sequence: the three validations before `CheckMergingFiles`
(existing-file policy, layer-file collection, nav arguments, image sizes)
are modelled as boolean parameters; `CheckMergingFiles` runs with the real
arguments; the in-memory build steps (`CreateTileset`, `CreateNavData`)
return `True` in the source; and the two on-disk writes (`ExportTileset`
saving the atlas image, `ExportTiledFile` writing the document) are
recorded as effects.  Returns the success flag and the writes performed,
in order. -/
def ProcessInputs (okExistingFiles okLayerFiles okNavArguments okImageSizes : Bool)
    (outTiledFileExists mergeExisting : Bool) (doc : TiledDoc)
    (layerWidth layerHeight : Nat) (outTilesetFile : String) :
    Bool × List WriteEffect :=
  if !okExistingFiles then (false, [])
  else if !okLayerFiles then (false, [])
  else if !okNavArguments then (false, [])
  else if !okImageSizes then (false, [])
  else if !CheckMergingFiles outTiledFileExists mergeExisting doc layerWidth
      layerHeight outTilesetFile then (false, [])
  else (true, [WriteEffect.writeTileset, WriteEffect.writeTiled])

lemma checkMergingFiles_false_width {doc : TiledDoc} {w h : Nat}
    {out : String} (hw : doc.width ≠ w) :
    CheckMergingFiles true true doc w h out = false := by
  simp [CheckMergingFiles, hw]

lemma checkMergingFiles_false_height {doc : TiledDoc} {w h : Nat}
    {out : String} (hh : doc.height ≠ h) :
    CheckMergingFiles true true doc w h out = false := by
  by_cases hw : doc.width = w
  · simp [CheckMergingFiles, hw, hh]
  · simp [CheckMergingFiles, hw]

lemma checkMergingFiles_false_tilesets {doc : TiledDoc} {w h : Nat}
    {out : String} (hts : doc.tilesets.length ≠ 1) :
    CheckMergingFiles true true doc w h out = false := by
  by_cases hw : doc.width = w
  · by_cases hh : doc.height = h
    · rcases Nat.lt_or_ge doc.tilesets.length 1 with h0 | h1
      · have hz : doc.tilesets.length = 0 := by omega
        simp [CheckMergingFiles, hw, hh, hz]
      · have hgt : 1 < doc.tilesets.length := by omega
        have hnz : doc.tilesets.length ≠ 0 := by omega
        simp [CheckMergingFiles, hw, hh, hnz, hgt]
    · simp [CheckMergingFiles, hw, hh]
  · simp [CheckMergingFiles, hw]

lemma checkMergingFiles_false_imgsrc {doc : TiledDoc} {w h : Nat}
    {out : String} (ts : XTileset) (src : String)
    (hts : doc.tilesets = [ts]) (himg : ts.images = [src])
    (hsrc : src ≠ out) :
    CheckMergingFiles true true doc w h out = false := by
  by_cases hw : doc.width = w
  · by_cases hh : doc.height = h
    · simp [CheckMergingFiles, hw, hh, hts, himg, hsrc]
    · simp [CheckMergingFiles, hw, hh]
  · simp [CheckMergingFiles, hw]

/-- C6: whenever the existing document's cell-grid width or height differs
from the new build's, or the document does not contain exactly one
tileset, or its tileset's image source differs from the atlas file this
build will produce, the run fails and performs no write at all — the
merge check runs before either output file is touched, so the original
document is left unmodified (this holds whatever the earlier validations
returned). -/
theorem mergeGuards_no_output (ok1 ok2 ok3 ok4 : Bool) (doc : TiledDoc)
    (layerWidth layerHeight : Nat) (outTilesetFile : String)
    (hbad : doc.width ≠ layerWidth ∨ doc.height ≠ layerHeight ∨
      doc.tilesets.length ≠ 1 ∨
      ∃ ts src, doc.tilesets = [ts] ∧ ts.images = [src] ∧
        src ≠ outTilesetFile) :
    (ProcessInputs ok1 ok2 ok3 ok4 true true doc layerWidth layerHeight
      outTilesetFile).1 = false ∧
    (ProcessInputs ok1 ok2 ok3 ok4 true true doc layerWidth layerHeight
      outTilesetFile).2 = [] := by
  have hchk : CheckMergingFiles true true doc layerWidth layerHeight
      outTilesetFile = false := by
    rcases hbad with hw | hh | hts | ⟨ts, src, hts, himg, hsrc⟩
    · exact checkMergingFiles_false_width hw
    · exact checkMergingFiles_false_height hh
    · exact checkMergingFiles_false_tilesets hts
    · exact checkMergingFiles_false_imgsrc ts src hts himg hsrc
  cases ok1 <;> cases ok2 <;> cases ok3 <;> cases ok4 <;>
    simp [ProcessInputs, hchk]

/-- C6 witness: an existing 10×10 document merged against a 12×10 build
fails with no writes. -/
theorem mergeGuards_no_output_witness :
    (TiledDoc.mk 10 10 [] [] []).width ≠ 12 ∧
    ((ProcessInputs true true true true true true (TiledDoc.mk 10 10 [] [] [])
        12 10 "tileset.png").1 = false ∧
      (ProcessInputs true true true true true true (TiledDoc.mk 10 10 [] [] [])
        12 10 "tileset.png").2 = []) :=
  ⟨by decide, mergeGuards_no_output true true true true (TiledDoc.mk 10 10 [] [] [])
    12 10 "tileset.png" (Or.inl (by decide))⟩

/-- Closed form of the in-place updates: layers whose name occurs in the
processed name list get their gids rewritten, all others stay. -/
def updByNames (layerDict : String → Nat → Nat × Nat) (P : List String)
    (l : XLayer) : XLayer :=
  if l.name ∈ P then updateLayerTiles (layerDict l.name) l else l

/-- Closed form of the appended part: one fresh layer block per built name
absent from the existing document, in build order. -/
def newLayers (layerWidth layerHeight layerTiles : Nat)
    (layerDict : String → Nat → Nat × Nat)
    (origNames names : List String) : List XLayer :=
  (names.filter fun n => decide (n ∉ origNames)).map
    fun n => CreateXMLLayer layerWidth layerHeight layerTiles (layerDict n) n

lemma updateLayerTiles_name (assign : Nat → Nat × Nat) (l : XLayer) :
    (updateLayerTiles assign l).name = l.name := rfl

lemma updByNames_name (layerDict : String → Nat → Nat × Nat)
    (P : List String) (l : XLayer) : (updByNames layerDict P l).name = l.name := by
  unfold updByNames
  split <;> rfl

lemma updateTilesFrom_idem (assign : Nat → Nat × Nat) :
    ∀ (ts : List XTile) (idx : Nat),
      updateTilesFrom assign idx (updateTilesFrom assign idx ts) =
        updateTilesFrom assign idx ts := by
  intro ts
  induction ts with
  | nil => intro idx; rfl
  | cons t ts ih =>
      intro idx
      simp only [updateTilesFrom]
      rw [ih (idx + 1)]

lemma updateLayerTiles_idem (assign : Nat → Nat × Nat) (l : XLayer) :
    updateLayerTiles assign (updateLayerTiles assign l) =
      updateLayerTiles assign l := by
  simp only [updateLayerTiles]
  rw [updateTilesFrom_idem]

lemma updateTilesFrom_length (assign : Nat → Nat × Nat) :
    ∀ (ts : List XTile) (idx : Nat),
      (updateTilesFrom assign idx ts).length = ts.length := by
  intro ts
  induction ts with
  | nil => intro idx; rfl
  | cons t ts ih =>
      intro idx
      simp only [updateTilesFrom, List.length_cons]
      rw [ih (idx + 1)]

lemma updateTilesFrom_getD (assign : Nat → Nat × Nat) :
    ∀ (ts : List XTile) (idx i : Nat), i < ts.length →
      (updateTilesFrom assign idx ts).getD i default =
        { ts.getD i default with gid := gidValue (assign (idx + i)) } := by
  intro ts
  induction ts with
  | nil => intro idx i hi; simp at hi
  | cons t ts ih =>
      intro idx i hi
      cases i with
      | zero => simp [updateTilesFrom]
      | succ i' =>
          have hi' : i' < ts.length := by
            simp only [List.length_cons] at hi
            omega
          simp only [updateTilesFrom, List.getD_cons_succ]
          rw [ih (idx + 1) i' hi']
          have harg : idx + 1 + i' = idx + (i' + 1) := by omega
          rw [harg]

lemma updateLastByName_not_mem (lname : String) (f : XLayer → XLayer) :
    ∀ (L : List XLayer), lname ∉ L.map XLayer.name →
      updateLastByName lname f L = L := by
  intro L
  induction L with
  | nil => intro h; rfl
  | cons l ls ih =>
      intro h
      simp only [List.map_cons, List.mem_cons] at h
      push_neg at h
      simp only [updateLastByName]
      rw [if_neg (by tauto), ih h.2]

lemma updateLastByName_append (lname : String) (f : XLayer → XLayer) :
    ∀ (A B : List XLayer), lname ∉ B.map XLayer.name →
      updateLastByName lname f (A ++ B) =
        updateLastByName lname f A ++ B := by
  intro A
  induction A with
  | nil =>
      intro B hB
      show updateLastByName lname f B = updateLastByName lname f [] ++ B
      rw [updateLastByName_not_mem lname f B hB]
      rfl
  | cons l A' ih =>
      intro B hB
      rw [List.cons_append]
      simp only [updateLastByName]
      have hiff : lname ∉ (A' ++ B).map XLayer.name ↔
          lname ∉ A'.map XLayer.name := by
        simp only [List.map_append, List.mem_append]
        constructor
        · intro hx hA
          exact hx (Or.inl hA)
        · intro hA hx
          rcases hx with h1 | h2
          · exact hA h1
          · exact hB h2
      by_cases hl : l.name = lname
      · by_cases hA : lname ∉ A'.map XLayer.name
        · rw [if_pos ⟨hl, hiff.mpr hA⟩, if_pos ⟨hl, hA⟩, List.cons_append]
        · rw [if_neg (fun hc => hA (hiff.mp hc.2)),
            if_neg (fun hc => hA hc.2), ih B hB, List.cons_append]
      · rw [if_neg (fun hc => hl hc.1), if_neg (fun hc => hl hc.1), ih B hB,
          List.cons_append]

lemma map_if_name_not_mem (lname : String) (f : XLayer → XLayer) :
    ∀ (L : List XLayer), lname ∉ L.map XLayer.name →
      L.map (fun l => if l.name = lname then f l else l) = L := by
  intro L
  induction L with
  | nil => intro h; rfl
  | cons l ls ih =>
      intro h
      simp only [List.map_cons, List.mem_cons] at h
      push_neg at h
      simp only [List.map_cons]
      rw [if_neg (by tauto), ih h.2]

lemma updateLastByName_eq_map (lname : String) (f : XLayer → XLayer) :
    ∀ (L : List XLayer), (L.map XLayer.name).Nodup →
      lname ∈ L.map XLayer.name →
      updateLastByName lname f L =
        L.map (fun l => if l.name = lname then f l else l) := by
  intro L
  induction L with
  | nil => intro _ h; simp at h
  | cons l ls ih =>
      intro hnodup hmem
      simp only [List.map_cons, List.nodup_cons] at hnodup
      simp only [updateLastByName, List.map_cons]
      by_cases hl : l.name = lname
      · have hnot : lname ∉ ls.map XLayer.name := by
          rw [← hl]
          exact hnodup.1
        rw [if_pos ⟨hl, hnot⟩, if_pos hl, map_if_name_not_mem lname f ls hnot]
      · have hmem' : lname ∈ ls.map XLayer.name := by
          simp only [List.map_cons, List.mem_cons] at hmem
          tauto
        rw [if_neg (by tauto), if_neg hl, ih hnodup.2 hmem']

lemma map_upd_step (ld : String → Nat → Nat × Nat) (P : List String)
    (lname : String) (orig : List XLayer) :
    (orig.map (updByNames ld P)).map
        (fun l => if l.name = lname then updateLayerTiles (ld lname) l else l) =
      orig.map (updByNames ld (P ++ [lname])) := by
  rw [List.map_map]
  apply List.map_congr_left
  intro l _
  simp only [Function.comp]
  by_cases hn : l.name = lname
  · subst hn
    by_cases hp : l.name ∈ P
    · have h1 : updByNames ld P l = updateLayerTiles (ld l.name) l := by
        simp [updByNames, hp]
      have h2 : updByNames ld (P ++ [l.name]) l =
          updateLayerTiles (ld l.name) l := by
        simp [updByNames, List.mem_append, hp]
      rw [h1, h2, if_pos (updateLayerTiles_name (ld l.name) l),
        updateLayerTiles_idem]
    · have h1 : updByNames ld P l = l := by simp [updByNames, hp]
      have h2 : updByNames ld (P ++ [l.name]) l =
          updateLayerTiles (ld l.name) l := by
        simp [updByNames, List.mem_append]
      rw [h1, h2, if_pos rfl]
  · by_cases hp : l.name ∈ P
    · have h1 : updByNames ld P l = updateLayerTiles (ld l.name) l := by
        simp [updByNames, hp]
      have h2 : updByNames ld (P ++ [lname]) l =
          updateLayerTiles (ld l.name) l := by
        simp [updByNames, List.mem_append, hp]
      rw [h1, h2, if_neg (by rw [updateLayerTiles_name]; exact hn)]
    · have h1 : updByNames ld P l = l := by simp [updByNames, hp]
      have h2 : updByNames ld (P ++ [lname]) l = l := by
        simp [updByNames, List.mem_append, hp, hn]
      rw [h1, h2, if_neg hn]

lemma merge_foldl (lw lh lt : Nat) (ld : String → Nat → Nat × Nat)
    (orig : List XLayer) (horig : (orig.map XLayer.name).Nodup) :
    ∀ (names : List String) (w h : Nat) (ra : List (String × String))
      (tss : List XTileset) (P : List String) (B : List XLayer),
      (∀ b ∈ B, b.name ∉ orig.map XLayer.name) →
      List.foldl (mergeStep lw lh lt ld (orig.map XLayer.name))
        (TiledDoc.mk w h ra tss (orig.map (updByNames ld P) ++ B)) names =
      TiledDoc.mk w h ra tss
        (orig.map (updByNames ld (P ++ names)) ++
          (B ++ newLayers lw lh lt ld (orig.map XLayer.name) names)) := by
  intro names
  induction names with
  | nil =>
      intro w h ra tss P B hB
      simp [newLayers]
  | cons lname rest ih =>
      intro w h ra tss P B hB
      rw [List.foldl_cons]
      by_cases hmem : lname ∈ orig.map XLayer.name
      · have hstep : mergeStep lw lh lt ld (orig.map XLayer.name)
            (TiledDoc.mk w h ra tss (orig.map (updByNames ld P) ++ B)) lname =
            TiledDoc.mk w h ra tss
              (orig.map (updByNames ld (P ++ [lname])) ++ B) := by
          simp only [mergeStep, if_pos hmem]
          congr 1
          have hBn : lname ∉ B.map XLayer.name := by
            intro hc
            rw [List.mem_map] at hc
            obtain ⟨b, hb, hbn⟩ := hc
            exact hB b hb (hbn ▸ hmem)
          rw [updateLastByName_append lname _ _ B hBn]
          have hnames : (orig.map (updByNames ld P)).map XLayer.name =
              orig.map XLayer.name := by
            rw [List.map_map]
            apply List.map_congr_left
            intro l _
            exact updByNames_name ld P l
          rw [updateLastByName_eq_map lname _ (orig.map (updByNames ld P))
            (by rw [hnames]; exact horig) (by rw [hnames]; exact hmem)]
          rw [map_upd_step]
        rw [hstep, ih w h ra tss (P ++ [lname]) B hB]
        congr 2
        · rw [List.append_assoc, List.singleton_append]
        · have hcond : (decide (lname ∉ orig.map XLayer.name)) = false := by
            simp [hmem]
          simp only [newLayers, List.filter_cons, hcond]
          simp
      · have hstep : mergeStep lw lh lt ld (orig.map XLayer.name)
            (TiledDoc.mk w h ra tss (orig.map (updByNames ld P) ++ B)) lname =
            TiledDoc.mk w h ra tss
              (orig.map (updByNames ld P) ++
                (B ++ [CreateXMLLayer lw lh lt (ld lname) lname])) := by
          simp only [mergeStep, if_neg hmem]
          congr 1
          rw [List.append_assoc]
        rw [hstep, ih w h ra tss P
          (B ++ [CreateXMLLayer lw lh lt (ld lname) lname]) ?_]
        · congr 2
          · apply List.map_congr_left
            intro l hl
            have hln : l.name ≠ lname := by
              intro hc
              exact hmem (hc ▸ List.mem_map_of_mem XLayer.name hl)
            by_cases hp : l.name ∈ P ++ rest
            · have hp2 : l.name ∈ P ++ lname :: rest := by
                simp only [List.mem_append, List.mem_cons] at hp ⊢
                tauto
              simp [updByNames, hp, hp2]
            · have hp2 : l.name ∉ P ++ lname :: rest := by
                simp only [List.mem_append, List.mem_cons] at hp ⊢
                push_neg at hp ⊢
                exact ⟨hp.1, hln, hp.2⟩
              simp [updByNames, hp, hp2]
          · rw [List.append_assoc]
            congr 1
            have hcond : (decide (lname ∉ orig.map XLayer.name)) = true := by
              simp [hmem]
            simp only [newLayers, List.filter_cons, hcond]
            simp
        · intro b hb
          rcases List.mem_append.mp hb with h1 | h2
          · exact hB b h1
          · rw [List.mem_singleton] at h2
            subst h2
            exact hmem

/-- C7: a successful merge modifies only layer gid content.  The merged
document keeps the existing root attributes, cell-grid width/height and
tileset entries unchanged; its layer list is exactly the existing layers —
each layer whose name occurs in the new build with only its per-cell gids
overwritten (cell-for-cell by index, tile count, layer name, layer
attributes and per-tile attributes untouched), every other layer
unchanged — followed by one appended fresh block per built layer name
absent from the existing document, in build order. -/
theorem mergeTiledFiles_frame (lw lh lt : Nat) (layerNames : List String)
    (layerDict : String → Nat → Nat × Nat) (doc : TiledDoc)
    (hnodup : (doc.layers.map XLayer.name).Nodup) :
    (MergeTiledFiles lw lh lt layerNames layerDict doc).width = doc.width ∧
    (MergeTiledFiles lw lh lt layerNames layerDict doc).height = doc.height ∧
    (MergeTiledFiles lw lh lt layerNames layerDict doc).rootAttrs =
      doc.rootAttrs ∧
    (MergeTiledFiles lw lh lt layerNames layerDict doc).tilesets =
      doc.tilesets ∧
    (MergeTiledFiles lw lh lt layerNames layerDict doc).layers =
      doc.layers.map (updByNames layerDict layerNames) ++
        newLayers lw lh lt layerDict (doc.layers.map XLayer.name) layerNames ∧
    (∀ (assign : Nat → Nat × Nat) (l : XLayer),
      (updateLayerTiles assign l).name = l.name ∧
      (updateLayerTiles assign l).attrs = l.attrs ∧
      (updateLayerTiles assign l).tiles.length = l.tiles.length ∧
      ∀ i, i < l.tiles.length →
        ((updateLayerTiles assign l).tiles.getD i default).gid =
          gidValue (assign i) ∧
        ((updateLayerTiles assign l).tiles.getD i default).attrs =
          (l.tiles.getD i default).attrs) := by
  obtain ⟨w, h, ra, tss, layers⟩ := doc
  simp only at hnodup
  have hid : layers.map (updByNames layerDict []) = layers := by
    have hcg := List.map_congr_left
      (f := updByNames layerDict []) (g := id) (l := layers)
      (fun l _ => by simp [updByNames])
    rw [hcg, List.map_id]
  have h0 := merge_foldl lw lh lt layerDict layers hnodup layerNames w h ra tss
    [] [] (by intro b hb; simp at hb)
  rw [List.append_nil, hid] at h0
  have hmain : MergeTiledFiles lw lh lt layerNames layerDict
      (TiledDoc.mk w h ra tss layers) =
      TiledDoc.mk w h ra tss
        (layers.map (updByNames layerDict layerNames) ++
          newLayers lw lh lt layerDict (layers.map XLayer.name) layerNames) := by
    unfold MergeTiledFiles
    simpa using h0
  rw [hmain]
  refine ⟨rfl, rfl, rfl, rfl, rfl, ?_⟩
  intro assign l
  refine ⟨rfl, rfl, updateTilesFrom_length assign l.tiles 0, ?_⟩
  intro i hi
  have hgd := updateTilesFrom_getD assign l.tiles 0 i hi
  rw [Nat.zero_add] at hgd
  constructor
  · show ((updateTilesFrom assign 0 l.tiles).getD i default).gid =
      gidValue (assign i)
    rw [hgd]
  · show ((updateTilesFrom assign 0 l.tiles).getD i default).attrs =
      (l.tiles.getD i default).attrs
    rw [hgd]

/-- C7 witness: the frame theorem evaluated on a concrete empty document
and one built layer name. -/
theorem mergeTiledFiles_frame_witness :
    ((TiledDoc.mk 0 0 [] [] []).layers.map XLayer.name).Nodup ∧
    ((MergeTiledFiles 1 1 1 ["a"] (fun _ _ => (0, 0))
        (TiledDoc.mk 0 0 [] [] [])).width = (TiledDoc.mk 0 0 [] [] []).width ∧
      (MergeTiledFiles 1 1 1 ["a"] (fun _ _ => (0, 0))
        (TiledDoc.mk 0 0 [] [] [])).height = (TiledDoc.mk 0 0 [] [] []).height ∧
      (MergeTiledFiles 1 1 1 ["a"] (fun _ _ => (0, 0))
        (TiledDoc.mk 0 0 [] [] [])).rootAttrs =
        (TiledDoc.mk 0 0 [] [] []).rootAttrs ∧
      (MergeTiledFiles 1 1 1 ["a"] (fun _ _ => (0, 0))
        (TiledDoc.mk 0 0 [] [] [])).tilesets =
        (TiledDoc.mk 0 0 [] [] []).tilesets ∧
      (MergeTiledFiles 1 1 1 ["a"] (fun _ _ => (0, 0))
        (TiledDoc.mk 0 0 [] [] [])).layers =
        (TiledDoc.mk 0 0 [] [] []).layers.map
          (updByNames (fun _ _ => (0, 0)) ["a"]) ++
          newLayers 1 1 1 (fun _ _ => (0, 0))
            ((TiledDoc.mk 0 0 [] [] []).layers.map XLayer.name) ["a"] ∧
      (∀ (assign : Nat → Nat × Nat) (l : XLayer),
        (updateLayerTiles assign l).name = l.name ∧
        (updateLayerTiles assign l).attrs = l.attrs ∧
        (updateLayerTiles assign l).tiles.length = l.tiles.length ∧
        ∀ i, i < l.tiles.length →
          ((updateLayerTiles assign l).tiles.getD i default).gid =
            gidValue (assign i) ∧
          ((updateLayerTiles assign l).tiles.getD i default).attrs =
            (l.tiles.getD i default).attrs)) :=
  ⟨by decide, mergeTiledFiles_frame 1 1 1 ["a"] (fun _ _ => (0, 0))
    (TiledDoc.mk 0 0 [] [] []) (by decide)⟩

/-- C5 witness: the packer invariant evaluated at `U = 5` in the halving
branch (dimensions 4×2, fitting the 5 tiles). -/
theorem exportTilesetDims_fits_witness :
    (1 : Nat) ≤ 5 ∧
    (5 ≤ (ExportTilesetDims 5 true).1 * (ExportTilesetDims 5 true).2 ∧
      (ExportTilesetDims 5 false).2 = (ExportTilesetDims 5 false).1 ∧
      IsPow2 (ExportTilesetDims 5 true).1 ∧
      5 ≤ (ExportTilesetDims 5 true).1 * (ExportTilesetDims 5 true).1 ∧
      (∀ p, IsPow2 p → 5 ≤ p * p → (ExportTilesetDims 5 true).1 ≤ p)) :=
  ⟨by decide, exportTilesetDims_fits 5 (by decide) true⟩
